import Mathlib

/-!
# Sampling-based planner (RRT) of `sampling-based/src/main.cpp`

A shallow embedding of the tree-growth code of the planner: the
nearest-neighbour scan, the steering step `NEW_CONFIG`, the extension step
`EXTEND` and the planner loop `runRRT`, over an arbitrary linearly ordered
field `K` (exact arithmetic; `K = ℝ` is the intended reading, `K = ℚ` is used
for evaluation at concrete inputs).

The headers `utils.h` and `rrt.h` are not among the sources.  What `main.cpp`
uses from them (the distance function, the point-in-polygon test, the value of
a default-constructed `Node`) is collected in the structure `Env` and every
general theorem holds for all environments.
-/

namespace RRT

/-! ## Data model -/

/-- Point of `utils.h`, used through the fields `x` and `y`. -/
structure Point (K : Type) where
  x : K
  y : K
deriving DecidableEq

/-- Polygon of `utils.h`, built in `init` as `Polygon(obstacle, obstacle.size())`
and read through `points[j]` and `num_points`. -/
structure Polygon (K : Type) where
  points : List (Point K)
  num_points : Nat
deriving DecidableEq

/-- Node of `rrt.h`: a point `pt` and a raw pointer `parent`.  A pointer is
`none` for `nullptr` and `some a` for the address `a` of an object allocated
with `new`; addresses index the list of allocated objects of `Planner`. -/
structure Node (K : Type) where
  pt : Point K
  parent : Option Nat
deriving DecidableEq

/-- The enumeration `status` of `main.cpp`, lines 34-39. -/
inductive status where
  | REACHED
  | ADVANCED
  | TRAPPED
deriving DecidableEq

/-- The mutable memory `EXTEND` works on: the vector `node_list` (the tree, nodes
stored by value in insertion order) and the objects allocated with `new Node(..)`,
in allocation order; the object at address `a` is `heap[a]`. -/
structure Planner (K : Type) where
  node_list : List (Node K)
  heap : List (Node K)
deriving DecidableEq

/-- What `main.cpp` takes from the headers that are not among the sources, and
the global `obstacles`.  `distance` is the function `dist` on positions,
`isPointInsideObstacle` the collision test, `q_default` the value of a
default-constructed `Node` (as in `Node q_near;`). -/
structure Env (K : Type) where
  distance : Point K → Point K → K
  isPointInsideObstacle : List (Polygon K) → Point K → Bool
  obstacles : List (Polygon K)
  q_default : Node K

/-- Line 31: `const int EPS = 20`. -/
def EPS : ℤ := 20

/-- The constant `INT_MAX` of a 32-bit `int`, the initial value of `nearest_dist`. -/
def INT_MAX : ℤ := 2147483647

section Generic

variable {K : Type} [LinearOrderedField K]

/-- Modelled from the spec: the constructor `Node(x, y)` of `rrt.h` (not among the
sources); a Node is a point plus an optional parent reference, and a freshly
constructed one has position `(x, y)` and an empty parent reference. -/
def Node.ofCoords (x y : K) : Node K := ⟨⟨x, y⟩, none⟩

/-- Modelled from the spec: `operator+` on nodes of `rrt.h` (not among the
sources), the componentwise sum of positions in
`near + (sample - near) * (stepSize / distance(sample, near))`. -/
def Node.add (a b : Node K) : Node K := Node.ofCoords (a.pt.x + b.pt.x) (a.pt.y + b.pt.y)

/-- Modelled from the spec: `operator-` on nodes of `rrt.h` (not among the
sources), the componentwise difference of positions. -/
def Node.sub (a b : Node K) : Node K := Node.ofCoords (a.pt.x - b.pt.x) (a.pt.y - b.pt.y)

/-- Modelled from the spec: `operator*` of a node by a scalar, of `rrt.h` (not
among the sources), the componentwise scaling of the position. -/
def Node.scale (a : Node K) (c : K) : Node K := Node.ofCoords (a.pt.x * c) (a.pt.y * c)

/-- The call `dist(a, b)` on two nodes: the distance of their positions. -/
def dist (E : Env K) (a b : Node K) : K := E.distance a.pt b.pt

/-! ## The planner code -/

/-- Lines 69-72: `q_new = q_near + (q_rand - q_near) * (EPS / dist(q_rand, q_near))`;
the result is the value assigned to the out-parameter `q_new`.  The arithmetic
is exact, without the rounding of `double`.  At a zero divisor the field
convention `x / 0 = 0` applies, where the code computes with `inf` and `NaN`;
no theorem below uses the value there, and `candidateChecked` makes that case
explicit. -/
def NEW_CONFIG (E : Env K) (q_rand q_near : Node K) : Node K :=
  Node.add q_near (Node.scale (Node.sub q_rand q_near) ((EPS : K) / dist E q_rand q_near))

/-- One iteration of the scan of lines 79-86 on the pair `(nearest_dist, q_near)`. -/
def scanStep (E : Env K) (q_rand : Node K) (acc : K × Node K) (q : Node K) : K × Node K :=
  if acc.1 > dist E q_rand q then (dist E q_rand q, q) else acc

/-- Lines 76-86: `Node q_near; double nearest_dist = INT_MAX;` followed by the
scan over `node_list`.  Returns `(nearest_dist, q_near)`. -/
def NEAREST_NEIGHBOR (E : Env K) (node_list : List (Node K)) (q_rand : Node K) : K × Node K :=
  node_list.foldl (scanStep E q_rand) ((INT_MAX : K), E.q_default)

/-- Lines 76-95: the value of `q_new` when the collision test of line 97 is
reached: `q_near` when `nearest_dist < EPS`, the result of `NEW_CONFIG`
otherwise. -/
def candidate (E : Env K) (node_list : List (Node K)) (q_rand : Node K) : Node K :=
  let nn := NEAREST_NEIGHBOR E node_list q_rand
  if nn.1 < (EPS : K) then nn.2 else NEW_CONFIG E q_rand nn.2

/-- Lines 74-122, the extension step.  `new Node(x, y)` allocates at the next
free address; the output to `std::cout` is left out. -/
def EXTEND (E : Env K) (s : Planner K) (q_rand q_goal : Node K) : status × Planner K :=
  let q_near := (NEAREST_NEIGHBOR E s.node_list q_rand).2
  let q_new := candidate E s.node_list q_rand
  if E.isPointInsideObstacle E.obstacles q_new.pt then
    (status.TRAPPED, s)
  else
    let heap1 := s.heap ++ [Node.ofCoords q_near.pt.x q_near.pt.y]
    let q_new : Node K := ⟨q_new.pt, some s.heap.length⟩
    let node_list1 := s.node_list ++ [q_new]
    if dist E q_new q_goal < (EPS : K) then
      let heap2 := heap1 ++ [Node.ofCoords q_new.pt.x q_new.pt.y]
      let q_final : Node K := ⟨q_goal.pt, some heap1.length⟩
      (status.REACHED, ⟨node_list1 ++ [q_final], heap2⟩)
    else
      (status.ADVANCED, ⟨node_list1, heap1⟩)

/-- The state in which `runRRT` and `main` start extending: the tree holds only
the root, with null parent, and nothing has been allocated. -/
def rootState (q_init : Node K) : Planner K := ⟨[⟨q_init.pt, none⟩], []⟩

/-- Planner states reachable from the root-only tree by `EXTEND` steps with
arbitrary samples. -/
inductive Reachable (E : Env K) (q_init q_goal : Node K) : Planner K → Prop where
  | root : Reachable E q_init q_goal (rootState q_init)
  | step (s : Planner K) (q_rand : Node K) :
      Reachable E q_init q_goal s → Reachable E q_init q_goal (EXTEND E s q_rand q_goal).2

/-- The sample `q_rand` has a node of the tree at distance below `INT_MAX`, so
that the scan of lines 79-86 assigns `q_near` at least once. -/
def InRange (E : Env K) (node_list : List (Node K)) (q_rand : Node K) : Prop :=
  ∃ q ∈ node_list, dist E q_rand q < (INT_MAX : K)

/-- Planner states reachable from the root-only tree by `EXTEND` steps whose
samples are in range of the tree. -/
inductive ReachableInRange (E : Env K) (q_init q_goal : Node K) : Planner K → Prop where
  | root : ReachableInRange E q_init q_goal (rootState q_init)
  | step (s : Planner K) (q_rand : Node K) :
      ReachableInRange E q_init q_goal s → InRange E s.node_list q_rand →
      ReachableInRange E q_init q_goal (EXTEND E s q_rand q_goal).2

/-- Path reconstruction as the spec words it (section 6): walk parent references
from node `n`, collecting positions, until a node with null parent.  `none` when
the fuel runs out or a pointer is dangling.  The list starts at `n`. -/
def parentWalk (heap : List (Node K)) : Nat → Node K → Option (List (Point K))
  | 0, _ => none
  | fuel + 1, n =>
    match n.parent with
    | none => some [n.pt]
    | some a =>
      match heap[a]? with
      | none => none
      | some p => (parentWalk heap fuel p).map (fun l => n.pt :: l)

/-- The distance value `d` is the Euclidean distance of `a` and `b`: it is
non-negative and its square is the sum of the squared coordinate differences. -/
def IsEuclid (d : K) (a b : Point K) : Prop :=
  0 ≤ d ∧ d ^ 2 = (a.x - b.x) ^ 2 + (a.y - b.y) ^ 2

/-- The steering step of lines 87-95 with the division made explicit: `none`
when `NEW_CONFIG` would divide by zero. -/
def candidateChecked (E : Env K) (node_list : List (Node K)) (q_rand : Node K) : Option (Node K) :=
  let nn := NEAREST_NEIGHBOR E node_list q_rand
  if nn.1 < (EPS : K) then some nn.2
  else if dist E q_rand nn.2 = 0 then none
  else some (NEW_CONFIG E q_rand nn.2)

/-- The number of nodes one extension step appends, by its status. -/
def appendedCount : status → Nat
  | status.TRAPPED => 0
  | status.ADVANCED => 1
  | status.REACHED => 2

/-- The lengths of the consecutive segments of a sequence of nodes. -/
def segmentLengths (E : Env K) (l : List (Node K)) : List K :=
  (l.zip l.tail).map (fun e => dist E e.1 e.2)

/-- The shape of the tree and of the allocated parent objects that the code
maintains: the first node is the root with null parent; every allocated object
has a null parent; every later node points to an allocated object that holds the
position of a node at a strictly earlier index. -/
def WellFormed (q_init : Node K) (s : Planner K) : Prop :=
  s.node_list[0]? = some ⟨q_init.pt, none⟩ ∧
  (∀ p ∈ s.heap, p.parent = none) ∧
  ∀ i n, 0 < i → s.node_list[i]? = some n →
    ∃ a j m, n.parent = some a ∧ j < i ∧ s.node_list[j]? = some m ∧
      s.heap[a]? = some ⟨m.pt, none⟩

/-- How the node `n` at index `i` of the tree got its parent reference.  Either
`n` is a new node: for some sample in range of the tree as it was before `n`
(the first `i` nodes), `n` is at the candidate position, the nearest node the
scan selects for that sample is one of those first `i` nodes, and the parent
reference of `n` resolves to an allocated object, with null parent, holding the
position of that nearest node.  Or `n` is a goal node: it is at the goal
position, is not the first node after the root, and its parent reference
resolves to an allocated object, with null parent, holding the position of the
node just before it (the new node of the same step). -/
def OriginAt (E : Env K) (q_goal : Node K) (s : Planner K) (i : Nat) (n : Node K) : Prop :=
  ∃ a, n.parent = some a ∧
    ((∃ q_rand, InRange E (s.node_list.take i) q_rand ∧
        n.pt = (candidate E (s.node_list.take i) q_rand).pt ∧
        (NEAREST_NEIGHBOR E (s.node_list.take i) q_rand).2 ∈ s.node_list.take i ∧
        s.heap[a]? = some ⟨(NEAREST_NEIGHBOR E (s.node_list.take i) q_rand).2.pt, none⟩) ∨
      (n.pt = q_goal.pt ∧ 1 < i ∧
        ∃ m, s.node_list[i - 1]? = some m ∧ s.heap[a]? = some ⟨m.pt, none⟩))

/-- Every node after the root got its parent reference as `OriginAt` says. -/
def ParentOrigin (E : Env K) (q_goal : Node K) (s : Planner K) : Prop :=
  ∀ i n, 0 < i → s.node_list[i]? = some n → OriginAt E q_goal s i n

/-- Scenario 1 of the spec: `n` extension steps from the root `(0,0)`, every
sample being the goal `(100,0)`.  Returns the status of the last step
(`ADVANCED` before any step, as in `main`) and the state. -/
def scenario1 (E : Env K) : Nat → status × Planner K
  | 0 => (status.ADVANCED, rootState (Node.ofCoords 0 0))
  | n + 1 => EXTEND E (scenario1 E n).2 (Node.ofCoords 100 0) (Node.ofCoords 100 0)

/-- Modelled from the spec: one edge of the ray-casting test; the horizontal ray
from `p` to the right crosses the edge from `a` to `b`. -/
def edgeCrosses (p a b : Point K) : Bool :=
  (decide (p.y < a.y) != decide (p.y < b.y)) &&
    decide (p.x < (b.x - a.x) * (p.y - a.y) / (b.y - a.y) + a.x)

/-- Modelled from the spec: the standard point-in-polygon test by ray casting
(section 4.1) on the closed boundary `points[0 .. num_points)`; `utils.h` is not
among the sources. -/
def pointInPolygon (poly : Polygon K) (p : Point K) : Bool :=
  let pts := poly.points.take poly.num_points
  (pts.zip pts.tail).foldl (fun c e => if edgeCrosses p e.1 e.2 then !c else c) false

/-- Modelled from the spec: `pointInsideAnyObstacle` (section 4.1), true when the
point lies inside any polygon of the obstacle set; stands for
`isPointInsideObstacle` of `utils.h`, which is not among the sources. -/
def pointInsideAnyObstacle (obstacles : List (Polygon K)) (p : Point K) : Bool :=
  obstacles.any (fun poly => pointInPolygon poly p)

end Generic

/-! ## A concrete environment over the rationals -/

/-- Modelled from the spec: the Euclidean distance (section 4.1) on rational
points, `utils.h` not being among the sources.  `Rat.sqrt` is exact when the
squared distance is the square of a rational (`euclidQ_exact`) and rounds down
otherwise, where it is not the Euclidean distance; it is evaluated below only
on pairs of points of one horizontal line and on the pairs `(30,40)`, `(0,0)`
and `(12,16)`, `(0,0)`, where it is exact. -/
def euclidQ (a b : Point ℚ) : ℚ := Rat.sqrt ((a.x - b.x) ^ 2 + (a.y - b.y) ^ 2)

/-- The rational environment with a given obstacle set: Euclidean distance,
ray-casting collision test, default-constructed node at the origin. -/
def envQ (obstacles : List (Polygon ℚ)) : Env ℚ :=
  ⟨euclidQ, pointInsideAnyObstacle, obstacles, Node.ofCoords 0 0⟩

/-- Lines 53-54: the obstacle set built by `init`, one rectangle. -/
def initObstacles : List (Polygon ℚ) :=
  [⟨[⟨200, 0⟩, ⟨250, 0⟩, ⟨250, 400⟩, ⟨200, 400⟩, ⟨200, 0⟩], 5⟩]

/-! ## Lemmas on the scan and on one extension step -/

section GenericLemmas
variable {K : Type} [LinearOrderedField K]

/-- What the scan of lines 79-86 computes from an arbitrary starting pair. -/
theorem scan_spec (E : Env K) (q_rand : Node K) (l : List (Node K)) :
    ∀ acc : K × Node K,
      (l.foldl (scanStep E q_rand) acc).1 ≤ acc.1 ∧
      (∀ q ∈ l, (l.foldl (scanStep E q_rand) acc).1 ≤ dist E q_rand q) ∧
      ((l.foldl (scanStep E q_rand) acc = acc ∧ ∀ q ∈ l, acc.1 ≤ dist E q_rand q) ∨
        ((l.foldl (scanStep E q_rand) acc).2 ∈ l ∧
          (l.foldl (scanStep E q_rand) acc).1 = dist E q_rand (l.foldl (scanStep E q_rand) acc).2 ∧
          (l.foldl (scanStep E q_rand) acc).1 < acc.1)) := by
  induction l with
  | nil => intro acc; simp
  | cons x xs ih =>
    intro acc
    simp only [List.foldl_cons]
    obtain ⟨h1, h2, h3⟩ := ih (scanStep E q_rand acc x)
    by_cases hx : acc.1 > dist E q_rand x
    · have hs : scanStep E q_rand acc x = (dist E q_rand x, x) := by simp [scanStep, hx]
      rw [hs] at h1 h2 h3 ⊢
      simp only at h1 h3
      refine ⟨le_trans h1 (le_of_lt hx), ?_, Or.inr ?_⟩
      · intro q hq
        rcases List.mem_cons.mp hq with rfl | hq
        · exact h1
        · exact h2 q hq
      · rcases h3 with ⟨heq, _⟩ | ⟨hm, hd, hlt⟩
        · rw [heq]; exact ⟨List.mem_cons_self _ _, rfl, hx⟩
        · exact ⟨List.mem_cons_of_mem _ hm, hd, lt_trans hlt hx⟩
    · have hs : scanStep E q_rand acc x = acc := by simp [scanStep, hx]
      rw [hs] at h1 h2 h3 ⊢
      have hx2 : acc.1 ≤ dist E q_rand x := not_lt.mp hx
      refine ⟨h1, ?_, ?_⟩
      · intro q hq
        rcases List.mem_cons.mp hq with rfl | hq
        · exact le_trans h1 hx2
        · exact h2 q hq
      · rcases h3 with ⟨heq, hall⟩ | ⟨hm, hd, hlt⟩
        · left
          refine ⟨heq, ?_⟩
          intro q hq
          rcases List.mem_cons.mp hq with rfl | hq
          · exact hx2
          · exact hall q hq
        · exact Or.inr ⟨List.mem_cons_of_mem _ hm, hd, hlt⟩

/-- In range of the tree, the scan selects a node of the tree at minimal distance. -/
theorem nearest_of_inRange (E : Env K) (node_list : List (Node K)) (q_rand : Node K)
    (h : InRange E node_list q_rand) :
    (NEAREST_NEIGHBOR E node_list q_rand).2 ∈ node_list ∧
      (∀ q ∈ node_list, (NEAREST_NEIGHBOR E node_list q_rand).1 ≤ dist E q_rand q) ∧
      (NEAREST_NEIGHBOR E node_list q_rand).1 =
        dist E q_rand (NEAREST_NEIGHBOR E node_list q_rand).2 := by
  obtain ⟨_, h2, h3⟩ := scan_spec E q_rand node_list ((INT_MAX : K), E.q_default)
  obtain ⟨q, hq, hlt⟩ := h
  rcases h3 with ⟨_, hall⟩ | ⟨hm, hd, _⟩
  · exact absurd (lt_of_lt_of_le hlt (hall q hq)) (lt_irrefl _)
  · exact ⟨hm, h2, hd⟩

end GenericLemmas
section StepLemmas
variable {K : Type} [LinearOrderedField K]

/-- The three outcomes of `EXTEND`, each with the state it leaves. -/
theorem EXTEND_cases (E : Env K) (s : Planner K) (q_rand q_goal : Node K) :
    (E.isPointInsideObstacle E.obstacles (candidate E s.node_list q_rand).pt = true ∧
        EXTEND E s q_rand q_goal = (status.TRAPPED, s)) ∨
      (E.isPointInsideObstacle E.obstacles (candidate E s.node_list q_rand).pt = false ∧
        dist E (candidate E s.node_list q_rand) q_goal < (EPS : K) ∧
        EXTEND E s q_rand q_goal =
          (status.REACHED,
            ⟨s.node_list ++ [⟨(candidate E s.node_list q_rand).pt, some s.heap.length⟩,
                ⟨q_goal.pt, some (s.heap.length + 1)⟩],
              s.heap ++ [⟨(NEAREST_NEIGHBOR E s.node_list q_rand).2.pt, none⟩,
                ⟨(candidate E s.node_list q_rand).pt, none⟩]⟩)) ∨
      (E.isPointInsideObstacle E.obstacles (candidate E s.node_list q_rand).pt = false ∧
        ¬ dist E (candidate E s.node_list q_rand) q_goal < (EPS : K) ∧
        EXTEND E s q_rand q_goal =
          (status.ADVANCED,
            ⟨s.node_list ++ [⟨(candidate E s.node_list q_rand).pt, some s.heap.length⟩],
              s.heap ++ [⟨(NEAREST_NEIGHBOR E s.node_list q_rand).2.pt, none⟩]⟩)) := by
  by_cases hin : E.isPointInsideObstacle E.obstacles (candidate E s.node_list q_rand).pt = true
  · left
    exact ⟨hin, by simp [EXTEND, hin]⟩
  · right
    have hin2 : E.isPointInsideObstacle E.obstacles (candidate E s.node_list q_rand).pt = false := by
      simpa using hin
    by_cases hd : dist E (candidate E s.node_list q_rand) q_goal < (EPS : K)
    · left
      have hd2 : E.distance (candidate E s.node_list q_rand).pt q_goal.pt < (EPS : K) := hd
      refine ⟨hin2, hd, ?_⟩
      simp [EXTEND, hin2, dist, hd2, Node.ofCoords]
    · right
      have hd2 : ¬ E.distance (candidate E s.node_list q_rand).pt q_goal.pt < (EPS : K) := hd
      refine ⟨hin2, hd, ?_⟩
      simp [EXTEND, hin2, dist, hd2, Node.ofCoords]

end StepLemmas

/-! ## Scenario 1, step by step -/

section ScenarioLemmas
variable {K : Type} [LinearOrderedField K]

/-- A Euclidean distance between two points of the horizontal axis is the
absolute difference of their abscissas. -/
theorem axis_distance (E : Env K)
    (hE : ∀ a b : K, IsEuclid (E.distance ⟨a, 0⟩ ⟨b, 0⟩) ⟨a, 0⟩ ⟨b, 0⟩) (a b : K) :
    E.distance ⟨a, 0⟩ ⟨b, 0⟩ = |a - b| := by
  obtain ⟨h0, h2⟩ := hE a b
  simp only [sub_self, ne_eq, OfNat.ofNat_ne_zero, not_false_eq_true, zero_pow, add_zero] at h2
  have h3 : |E.distance ⟨a, 0⟩ ⟨b, 0⟩| = |a - b| := (sq_eq_sq_iff_abs_eq_abs _ _).mp h2
  rwa [abs_of_nonneg h0] at h3

/-- Scenario 1, first step: the node `(20,0)` is added, status `ADVANCED`. -/
theorem scenario1_one (E : Env K)
    (hE : ∀ a b : K, IsEuclid (E.distance ⟨a, 0⟩ ⟨b, 0⟩) ⟨a, 0⟩ ⟨b, 0⟩)
    (hobs : ∀ p, E.isPointInsideObstacle E.obstacles p = false) :
    scenario1 E 1 = (status.ADVANCED,
      ⟨[⟨⟨0, 0⟩, none⟩, ⟨⟨20, 0⟩, some 0⟩], [⟨⟨0, 0⟩, none⟩]⟩) := by
  have hd := axis_distance E hE
  simp [scenario1, EXTEND, candidate, NEAREST_NEIGHBOR, scanStep, NEW_CONFIG, dist,
    Node.ofCoords, Node.add, Node.sub, Node.scale, EPS, INT_MAX, rootState, hd, hobs]
  norm_num [hd, abs_of_nonneg]

/-- Scenario 1, second step: the node `(40,0)` is added, status `ADVANCED`. -/
theorem scenario1_two (E : Env K)
    (hE : ∀ a b : K, IsEuclid (E.distance ⟨a, 0⟩ ⟨b, 0⟩) ⟨a, 0⟩ ⟨b, 0⟩)
    (hobs : ∀ p, E.isPointInsideObstacle E.obstacles p = false) :
    scenario1 E 2 = (status.ADVANCED,
      ⟨[⟨⟨0, 0⟩, none⟩, ⟨⟨20, 0⟩, some 0⟩, ⟨⟨40, 0⟩, some 1⟩],
        [⟨⟨0, 0⟩, none⟩, ⟨⟨20, 0⟩, none⟩]⟩) := by
  have hd := axis_distance E hE
  show EXTEND E (scenario1 E 1).2 _ _ = _
  rw [scenario1_one E hE hobs]
  simp [EXTEND, candidate, NEAREST_NEIGHBOR, scanStep, NEW_CONFIG, dist,
    Node.ofCoords, Node.add, Node.sub, Node.scale, EPS, INT_MAX, hd, hobs]
  norm_num [hd, abs_of_nonneg]

/-- Scenario 1, third step: the node `(60,0)` is added, status `ADVANCED`. -/
theorem scenario1_three (E : Env K)
    (hE : ∀ a b : K, IsEuclid (E.distance ⟨a, 0⟩ ⟨b, 0⟩) ⟨a, 0⟩ ⟨b, 0⟩)
    (hobs : ∀ p, E.isPointInsideObstacle E.obstacles p = false) :
    scenario1 E 3 = (status.ADVANCED,
      ⟨[⟨⟨0, 0⟩, none⟩, ⟨⟨20, 0⟩, some 0⟩, ⟨⟨40, 0⟩, some 1⟩, ⟨⟨60, 0⟩, some 2⟩],
        [⟨⟨0, 0⟩, none⟩, ⟨⟨20, 0⟩, none⟩, ⟨⟨40, 0⟩, none⟩]⟩) := by
  have hd := axis_distance E hE
  show EXTEND E (scenario1 E 2).2 _ _ = _
  rw [scenario1_two E hE hobs]
  simp [EXTEND, candidate, NEAREST_NEIGHBOR, scanStep, NEW_CONFIG, dist,
    Node.ofCoords, Node.add, Node.sub, Node.scale, EPS, INT_MAX, hd, hobs]
  norm_num [hd, abs_of_nonneg]

/-- Scenario 1, fourth step: the node `(80,0)` is added; it is at distance
exactly 20 from the goal, which is not below `EPS`, so the status is `ADVANCED`. -/
theorem scenario1_four (E : Env K)
    (hE : ∀ a b : K, IsEuclid (E.distance ⟨a, 0⟩ ⟨b, 0⟩) ⟨a, 0⟩ ⟨b, 0⟩)
    (hobs : ∀ p, E.isPointInsideObstacle E.obstacles p = false) :
    scenario1 E 4 = (status.ADVANCED,
      ⟨[⟨⟨0, 0⟩, none⟩, ⟨⟨20, 0⟩, some 0⟩, ⟨⟨40, 0⟩, some 1⟩, ⟨⟨60, 0⟩, some 2⟩,
          ⟨⟨80, 0⟩, some 3⟩],
        [⟨⟨0, 0⟩, none⟩, ⟨⟨20, 0⟩, none⟩, ⟨⟨40, 0⟩, none⟩, ⟨⟨60, 0⟩, none⟩]⟩) := by
  have hd := axis_distance E hE
  show EXTEND E (scenario1 E 3).2 _ _ = _
  rw [scenario1_three E hE hobs]
  simp [EXTEND, candidate, NEAREST_NEIGHBOR, scanStep, NEW_CONFIG, dist,
    Node.ofCoords, Node.add, Node.sub, Node.scale, EPS, INT_MAX, hd, hobs]
  norm_num [hd, abs_of_nonneg]

/-- Scenario 1, fifth step: a node at the goal position `(100,0)` is added, then
the goal node; status `REACHED`, seven nodes. -/
theorem scenario1_five (E : Env K)
    (hE : ∀ a b : K, IsEuclid (E.distance ⟨a, 0⟩ ⟨b, 0⟩) ⟨a, 0⟩ ⟨b, 0⟩)
    (hobs : ∀ p, E.isPointInsideObstacle E.obstacles p = false) :
    scenario1 E 5 = (status.REACHED,
      ⟨[⟨⟨0, 0⟩, none⟩, ⟨⟨20, 0⟩, some 0⟩, ⟨⟨40, 0⟩, some 1⟩, ⟨⟨60, 0⟩, some 2⟩,
          ⟨⟨80, 0⟩, some 3⟩, ⟨⟨100, 0⟩, some 4⟩, ⟨⟨100, 0⟩, some 5⟩],
        [⟨⟨0, 0⟩, none⟩, ⟨⟨20, 0⟩, none⟩, ⟨⟨40, 0⟩, none⟩, ⟨⟨60, 0⟩, none⟩,
          ⟨⟨80, 0⟩, none⟩, ⟨⟨100, 0⟩, none⟩]⟩) := by
  have hd := axis_distance E hE
  show EXTEND E (scenario1 E 4).2 _ _ = _
  rw [scenario1_four E hE hobs]
  simp [EXTEND, candidate, NEAREST_NEIGHBOR, scanStep, NEW_CONFIG, dist,
    Node.ofCoords, Node.add, Node.sub, Node.scale, EPS, INT_MAX, hd, hobs]
  norm_num [hd, abs_of_nonneg]

end ScenarioLemmas

/-! ## The tree and the allocated parent objects -/

section HeapLemmas
variable {K : Type}

/-- A lookup that succeeds still succeeds, with the same result, after appending. -/
theorem getElem?_append_some {α : Type} (l l2 : List α) (i : Nat) (v : α)
    (h : l[i]? = some v) : (l ++ l2)[i]? = some v := by
  have hi : i < l.length := by
    by_contra hc
    rw [List.getElem?_eq_none (not_lt.mp hc)] at h
    exact Option.noConfusion h
  rw [List.getElem?_append_left hi]
  exact h

/-- The root-only state is well formed. -/
theorem WellFormed_root (q_init : Node K) : WellFormed q_init (rootState q_init) := by
  refine ⟨rfl, ?_, ?_⟩
  · intro p hp
    simp [rootState] at hp
  · intro i n hi hn
    have : i < 1 := by
      by_contra hc
      have hnone : (rootState q_init).node_list[i]? = none :=
        List.getElem?_eq_none (by simpa [rootState] using not_lt.mp hc)
      rw [hnone] at hn
      exact Option.noConfusion hn
    omega

/-- Appending a node whose parent pointer is a freshly allocated copy of the
position of a node already in the tree keeps the state well formed. -/
theorem WellFormed_push (q_init : Node K) (s : Planner K) (m : Node K) (pt : Point K)
    (hw : WellFormed q_init s) (hm : m ∈ s.node_list) :
    WellFormed q_init
      ⟨s.node_list ++ [⟨pt, some s.heap.length⟩], s.heap ++ [⟨m.pt, none⟩]⟩ := by
  obtain ⟨h0, hheap, hpar⟩ := hw
  refine ⟨getElem?_append_some _ _ _ _ h0, ?_, ?_⟩
  · intro p hp
    rcases List.mem_append.mp hp with hp | hp
    · exact hheap p hp
    · simp only [List.mem_singleton] at hp
      rw [hp]
  · intro i n hi hn
    simp only at hn ⊢
    by_cases hlt : i < s.node_list.length
    · rw [List.getElem?_append_left hlt] at hn
      obtain ⟨a, j, m2, ha, hj, hm2, hh⟩ := hpar i n hi hn
      exact ⟨a, j, m2, ha, hj, getElem?_append_some _ _ _ _ hm2, getElem?_append_some _ _ _ _ hh⟩
    · have hge : s.node_list.length ≤ i := not_lt.mp hlt
      rw [List.getElem?_append_right hge] at hn
      have hi0 : i - s.node_list.length = 0 := by
        by_contra hc
        have hnone : [(⟨pt, some s.heap.length⟩ : Node K)][i - s.node_list.length]? = none :=
          List.getElem?_eq_none (by simp; omega)
        rw [hnone] at hn
        exact Option.noConfusion hn
      rw [hi0] at hn
      simp only [List.getElem?_cons_zero, Option.some.injEq] at hn
      obtain ⟨j, hj⟩ := List.mem_iff_getElem?.mp hm
      have hjlt : j < s.node_list.length := by
        by_contra hc
        rw [List.getElem?_eq_none (not_lt.mp hc)] at hj
        exact Option.noConfusion hj
      refine ⟨s.heap.length, j, m, ?_, by omega, getElem?_append_some _ _ _ _ hj, ?_⟩
      · rw [← hn]
      · simp

/-- In a well-formed state the walk along parent pointers from any node of the
tree ends after at most one step. -/
theorem WellFormed_walk (q_init : Node K) (s : Planner K) (hw : WellFormed q_init s)
    (n : Node K) (hn : n ∈ s.node_list) (fuel : Nat) (hf : 2 ≤ fuel) :
    ∃ path, parentWalk s.heap fuel n = some path ∧ path.length ≤ 2 := by
  obtain ⟨h0, _, hpar⟩ := hw
  obtain ⟨i, hi⟩ := List.mem_iff_getElem?.mp hn
  obtain ⟨f, rfl⟩ : ∃ f, fuel = f + 2 := ⟨fuel - 2, by omega⟩
  rcases Nat.eq_zero_or_pos i with hz | hpos
  · rw [hz, h0] at hi
    simp only [Option.some.injEq] at hi
    refine ⟨[n.pt], ?_, by simp⟩
    rw [← hi]
    simp [parentWalk]
  · obtain ⟨a, j, m, ha, _, _, hh⟩ := hpar i n hpos hi
    refine ⟨[n.pt, m.pt], ?_, by simp⟩
    simp [parentWalk, ha, hh]

end HeapLemmas

section InvariantLemmas
variable {K : Type} [LinearOrderedField K]

/-- An in-range extension step keeps the state well formed. -/
theorem WellFormed_step (E : Env K) (q_init q_goal q_rand : Node K) (s : Planner K)
    (hw : WellFormed q_init s) (hr : InRange E s.node_list q_rand) :
    WellFormed q_init (EXTEND E s q_rand q_goal).2 := by
  have hnear := (nearest_of_inRange E s.node_list q_rand hr).1
  rcases EXTEND_cases E s q_rand q_goal with ⟨_, he⟩ | ⟨_, _, he⟩ | ⟨_, _, he⟩
  · rw [he]; exact hw
  · rw [he]
    have h1 := WellFormed_push q_init s _ (candidate E s.node_list q_rand).pt hw hnear
    have h2 := WellFormed_push q_init _
      (⟨(candidate E s.node_list q_rand).pt, some s.heap.length⟩ : Node K) q_goal.pt h1
      (by simp)
    simpa using h2
  · rw [he]
    exact WellFormed_push q_init s _ (candidate E s.node_list q_rand).pt hw hnear

/-- The element right after a list `l` in `l ++ x :: r` is `x`. -/
theorem getElem?_append_length {α : Type} (l r : List α) (x : α) :
    (l ++ x :: r)[l.length]? = some x := by
  rw [List.getElem?_append_right (le_refl _)]
  simp

/-- The origin of a node of the tree is not affected by appending nodes and
allocating objects. -/
theorem OriginAt_append (E : Env K) (q_goal : Node K) (s : Planner K)
    (l2 h2 : List (Node K)) (i : Nat) (n : Node K) (hi : i < s.node_list.length)
    (h : OriginAt E q_goal s i n) :
    OriginAt E q_goal ⟨s.node_list ++ l2, s.heap ++ h2⟩ i n := by
  obtain ⟨a, ha, hor⟩ := h
  refine ⟨a, ha, ?_⟩
  have htake : (s.node_list ++ l2).take i = s.node_list.take i :=
    List.take_append_of_le_length (le_of_lt hi)
  rcases hor with ⟨q_rand, hr, hpt, hmem, hh⟩ | ⟨hpt, h1, m, hm, hh⟩
  · left
    refine ⟨q_rand, ?_, ?_, ?_, ?_⟩
    · simp only [htake]; exact hr
    · simp only [htake]; exact hpt
    · simp only [htake]; exact hmem
    · simp only [htake]; exact getElem?_append_some _ _ _ _ hh
  · right
    exact ⟨hpt, h1, m, getElem?_append_some _ _ _ _ hm, getElem?_append_some _ _ _ _ hh⟩

/-- Appending one node whose origin is as `OriginAt` says keeps `ParentOrigin`. -/
theorem ParentOrigin_push (E : Env K) (q_goal : Node K) (s : Planner K)
    (x : Node K) (h2 : List (Node K)) (hp : ParentOrigin E q_goal s)
    (hx : OriginAt E q_goal ⟨s.node_list ++ [x], s.heap ++ h2⟩ s.node_list.length x) :
    ParentOrigin E q_goal ⟨s.node_list ++ [x], s.heap ++ h2⟩ := by
  intro i n hi hn
  simp only at hn
  by_cases hlt : i < s.node_list.length
  · rw [List.getElem?_append_left hlt] at hn
    exact OriginAt_append E q_goal s [x] h2 i n hlt (hp i n hi hn)
  · have hge : s.node_list.length ≤ i := not_lt.mp hlt
    rw [List.getElem?_append_right hge] at hn
    have hi0 : i - s.node_list.length = 0 := by
      by_contra hc
      have hnone : [x][i - s.node_list.length]? = none :=
        List.getElem?_eq_none (by simp; omega)
      rw [hnone] at hn
      exact Option.noConfusion hn
    rw [hi0] at hn
    simp only [List.getElem?_cons_zero, Option.some.injEq] at hn
    have hieq : i = s.node_list.length := by omega
    rw [hieq, ← hn]
    exact hx

/-- An in-range extension step keeps `ParentOrigin`. -/
theorem ParentOrigin_step (E : Env K) (q_goal q_rand : Node K) (s : Planner K)
    (hp : ParentOrigin E q_goal s) (hr : InRange E s.node_list q_rand) :
    ParentOrigin E q_goal (EXTEND E s q_rand q_goal).2 := by
  have hpos : 0 < s.node_list.length := by
    obtain ⟨q, hq, _⟩ := hr
    exact List.length_pos_of_mem hq
  have hnew : ∀ h2 : List (Node K),
      OriginAt E q_goal
        ⟨s.node_list ++ [⟨(candidate E s.node_list q_rand).pt, some s.heap.length⟩],
          s.heap ++ (⟨(NEAREST_NEIGHBOR E s.node_list q_rand).2.pt, none⟩ :: h2)⟩
        s.node_list.length ⟨(candidate E s.node_list q_rand).pt, some s.heap.length⟩ := by
    intro h2
    refine ⟨s.heap.length, rfl, Or.inl ⟨q_rand, ?_, ?_, ?_, ?_⟩⟩
    · simp only [List.take_left]; exact hr
    · simp only [List.take_left]
    · simp only [List.take_left]; exact (nearest_of_inRange E s.node_list q_rand hr).1
    · simp only [List.take_left]
      exact getElem?_append_length _ _ _
  rcases EXTEND_cases E s q_rand q_goal with ⟨_, he⟩ | ⟨_, _, he⟩ | ⟨_, _, he⟩
  · rw [he]; exact hp
  · rw [he]
    have h1 := ParentOrigin_push E q_goal s _ _ hp (hnew [])
    have h2 := ParentOrigin_push E q_goal
      ⟨s.node_list ++ [⟨(candidate E s.node_list q_rand).pt, some s.heap.length⟩],
        s.heap ++ [⟨(NEAREST_NEIGHBOR E s.node_list q_rand).2.pt, none⟩]⟩
      ⟨q_goal.pt, some (s.heap.length + 1)⟩
      [⟨(candidate E s.node_list q_rand).pt, none⟩] h1
      ⟨s.heap.length + 1, rfl, Or.inr ⟨rfl, by simp only [List.length_append, List.length_singleton]; omega,
        ⟨(candidate E s.node_list q_rand).pt, some s.heap.length⟩, by
          simp only [List.length_append, List.length_singleton, Nat.add_sub_cancel,
            List.append_assoc, List.singleton_append]
          exact getElem?_append_length _ _ _, by
          simp only [List.append_assoc, List.singleton_append]
          rw [List.getElem?_append_right (by omega)]
          simp⟩⟩
    simpa using h2
  · rw [he]
    exact ParentOrigin_push E q_goal s _ _ hp (hnew [])

/-- The root-only state has no node after the root. -/
theorem ParentOrigin_root (E : Env K) (q_init q_goal : Node K) :
    ParentOrigin E q_goal (rootState q_init) := by
  intro i n hi hn
  have : i < 1 := by
    by_contra hc
    have hnone : (rootState q_init).node_list[i]? = none :=
      List.getElem?_eq_none (by simpa [rootState] using not_lt.mp hc)
    rw [hnone] at hn
    exact Option.noConfusion hn
  omega

/-- The fifth extension step of scenario 1, from the state after four steps. -/
theorem scenario1_step_five (E : Env K)
    (hE : ∀ a b : K, IsEuclid (E.distance ⟨a, 0⟩ ⟨b, 0⟩) ⟨a, 0⟩ ⟨b, 0⟩)
    (hobs : ∀ p, E.isPointInsideObstacle E.obstacles p = false) :
    EXTEND E (scenario1 E 4).2 (Node.ofCoords 100 0) (Node.ofCoords 100 0) =
      (status.REACHED,
        ⟨[⟨⟨0, 0⟩, none⟩, ⟨⟨20, 0⟩, some 0⟩, ⟨⟨40, 0⟩, some 1⟩, ⟨⟨60, 0⟩, some 2⟩,
            ⟨⟨80, 0⟩, some 3⟩, ⟨⟨100, 0⟩, some 4⟩, ⟨⟨100, 0⟩, some 5⟩],
          [⟨⟨0, 0⟩, none⟩, ⟨⟨20, 0⟩, none⟩, ⟨⟨40, 0⟩, none⟩, ⟨⟨60, 0⟩, none⟩,
            ⟨⟨80, 0⟩, none⟩, ⟨⟨100, 0⟩, none⟩]⟩) :=
  scenario1_five E hE hobs

end InvariantLemmas

section ClaimLemmas
variable {K : Type} [LinearOrderedField K]

/-- The step size is below the initial value of `nearest_dist`. -/
theorem EPS_lt_INT_MAX : ((EPS : ℤ) : K) < ((INT_MAX : ℤ) : K) := by
  norm_num [EPS, INT_MAX]

/-- The step size is positive. -/
theorem EPS_pos : (0 : K) < ((EPS : ℤ) : K) := by
  norm_num [EPS]

/-- A node of the tree closer than `EPS` to the sample puts the sample in range
and makes the scan end with `nearest_dist < EPS`. -/
theorem nearest_lt_EPS (E : Env K) (node_list : List (Node K)) (q_rand : Node K)
    (h : ∃ q ∈ node_list, dist E q_rand q < (EPS : K)) :
    InRange E node_list q_rand ∧ (NEAREST_NEIGHBOR E node_list q_rand).1 < (EPS : K) := by
  obtain ⟨q, hq, hlt⟩ := h
  have hr : InRange E node_list q_rand := ⟨q, hq, lt_trans hlt EPS_lt_INT_MAX⟩
  exact ⟨hr, lt_of_le_of_lt ((nearest_of_inRange E node_list q_rand hr).2.1 q hq) hlt⟩

/-- The nodes one extension step appends are outside every obstacle when the
goal is. -/
theorem EXTEND_added_free (E : Env K) (q_goal : Node K)
    (hgoal : E.isPointInsideObstacle E.obstacles q_goal.pt = false)
    (s : Planner K) (q_rand : Node K) :
    ∃ added, (EXTEND E s q_rand q_goal).2.node_list = s.node_list ++ added ∧
      ∀ n ∈ added, E.isPointInsideObstacle E.obstacles n.pt = false := by
  rcases EXTEND_cases E s q_rand q_goal with ⟨_, he⟩ | ⟨hin, _, he⟩ | ⟨hin, _, he⟩
  · exact ⟨[], by rw [he]; simp, by simp⟩
  · refine ⟨_, by rw [he], ?_⟩
    intro n hn
    simp only [List.mem_cons, List.mem_singleton, List.not_mem_nil, or_false] at hn
    rcases hn with rfl | rfl
    · exact hin
    · exact hgoal
  · refine ⟨_, by rw [he], ?_⟩
    intro n hn
    simp only [List.mem_singleton] at hn
    rw [hn]
    exact hin

/-- Two non-negative values with the same square are equal. -/
theorem eq_of_sq_eq_of_nonneg (a b : K) (ha : 0 ≤ a) (hb : 0 ≤ b) (h : a ^ 2 = b ^ 2) :
    a = b := by
  have h3 : |a| = |b| := (sq_eq_sq_iff_abs_eq_abs _ _).mp h
  rwa [abs_of_nonneg ha, abs_of_nonneg hb] at h3

end ClaimLemmas

section ShapeLemmas
variable {K : Type} [LinearOrderedField K]

/-- A query farther than `INT_MAX` from the only node of the tree: the scan
selects nothing, `q_near` stays the default-constructed node and `nearest_dist`
stays `INT_MAX`. -/
theorem far_query_scan (E : Env K)
    (hd : ∀ a b c : K, E.distance ⟨a, c⟩ ⟨b, c⟩ = |a - b|)
    (hdef : E.q_default = Node.ofCoords 0 0) :
    NEAREST_NEIGHBOR E [Node.ofCoords 1 0] (Node.ofCoords 3000000001 0) =
        (2147483647, E.q_default) ∧
      (NEAREST_NEIGHBOR E [Node.ofCoords 1 0] (Node.ofCoords 3000000001 0)).2 ∉
        [(Node.ofCoords 1 0 : Node K)] ∧
      dist E (Node.ofCoords 3000000001 0) (Node.ofCoords 1 0) = 3000000000 ∧
      (NEAREST_NEIGHBOR E [Node.ofCoords 1 0] (Node.ofCoords 3000000001 0)).1 ≠
        dist E (Node.ofCoords 3000000001 0) (Node.ofCoords 1 0) := by
  have hdist : dist E (Node.ofCoords 3000000001 0) (Node.ofCoords 1 0) = 3000000000 := by
    simp only [dist, Node.ofCoords, hd]
    norm_num [abs_of_nonneg]
  have hn : NEAREST_NEIGHBOR E [Node.ofCoords 1 0] (Node.ofCoords 3000000001 0) =
      (2147483647, E.q_default) := by
    simp only [NEAREST_NEIGHBOR, List.foldl, scanStep, hdist]
    norm_num [INT_MAX]
  refine ⟨hn, ?_, hdist, ?_⟩
  · rw [hn, hdef]
    simp [Node.ofCoords]
  · rw [hn, hdist]
    norm_num

/-- The sample at the position of the default-constructed node, with the only
node of the tree farther than `INT_MAX`: `NEW_CONFIG` is called with divisor 0. -/
theorem far_tree_zero_divisor (E : Env K)
    (hd : ∀ a b c : K, E.distance ⟨a, c⟩ ⟨b, c⟩ = |a - b|)
    (hdef : E.q_default = Node.ofCoords 0 0) :
    ¬ (NEAREST_NEIGHBOR E [Node.ofCoords 3000000000 0] (Node.ofCoords 0 0)).1 < (EPS : K) ∧
      dist E (Node.ofCoords 0 0)
        (NEAREST_NEIGHBOR E [Node.ofCoords 3000000000 0] (Node.ofCoords 0 0)).2 = 0 ∧
      candidateChecked E [Node.ofCoords 3000000000 0] (Node.ofCoords 0 0) = none := by
  have hdist : dist E (Node.ofCoords 0 0) (Node.ofCoords 3000000000 0) = 3000000000 := by
    simp only [dist, Node.ofCoords, hd]
    norm_num [abs_of_nonneg]
  have hn : NEAREST_NEIGHBOR E [Node.ofCoords 3000000000 0] (Node.ofCoords 0 0) =
      (2147483647, Node.ofCoords 0 0) := by
    simp only [NEAREST_NEIGHBOR, List.foldl, scanStep, hdist, hdef]
    norm_num [INT_MAX]
  have h0 : dist E (Node.ofCoords 0 0) (Node.ofCoords 0 0) = 0 := by
    simp only [dist, Node.ofCoords, hd]
    norm_num
  refine ⟨?_, ?_, ?_⟩
  · rw [hn]; norm_num [EPS]
  · rw [hn]; exact h0
  · simp only [candidateChecked]
    rw [hn]
    simp only [h0]
    norm_num [EPS]

/-- Whatever the default-constructed node is, some one-node tree and sample make
the steering step divide by zero: the sample at the default position and the
node farther than `INT_MAX` from it. -/
theorem zero_divisor_any_default (E : Env K)
    (hd : ∀ a b c : K, E.distance ⟨a, c⟩ ⟨b, c⟩ = |a - b|) :
    candidateChecked E [⟨⟨E.q_default.pt.x + 3000000000, E.q_default.pt.y⟩, none⟩]
      ⟨⟨E.q_default.pt.x, E.q_default.pt.y⟩, none⟩ = none := by
  have hdist : dist E ⟨⟨E.q_default.pt.x, E.q_default.pt.y⟩, none⟩
      ⟨⟨E.q_default.pt.x + 3000000000, E.q_default.pt.y⟩, none⟩ = 3000000000 := by
    simp only [dist, hd]
    norm_num [abs_of_nonneg]
  have hn : NEAREST_NEIGHBOR E [⟨⟨E.q_default.pt.x + 3000000000, E.q_default.pt.y⟩, none⟩]
      ⟨⟨E.q_default.pt.x, E.q_default.pt.y⟩, none⟩ = (2147483647, E.q_default) := by
    simp only [NEAREST_NEIGHBOR, List.foldl, scanStep, hdist]
    norm_num [INT_MAX]
  have h0 : dist E ⟨⟨E.q_default.pt.x, E.q_default.pt.y⟩, none⟩ E.q_default = 0 := by
    have := hd E.q_default.pt.x E.q_default.pt.x E.q_default.pt.y
    simpa [dist] using this
  simp only [candidateChecked]
  rw [hn]
  simp only [h0]
  norm_num [EPS]

/-- A sample closer than `EPS` to the root: a second node at the root's position
is appended. -/
theorem short_step_extend (E : Env K)
    (hd : ∀ a b c : K, E.distance ⟨a, c⟩ ⟨b, c⟩ = |a - b|)
    (hobs : ∀ p, E.isPointInsideObstacle E.obstacles p = false) :
    dist E (Node.ofCoords 10 0) (Node.ofCoords 0 0) = 10 ∧
      EXTEND E (rootState (Node.ofCoords 0 0)) (Node.ofCoords 10 0) (Node.ofCoords 100 0) =
        (status.ADVANCED,
          ⟨[⟨⟨0, 0⟩, none⟩, ⟨⟨0, 0⟩, some 0⟩], [⟨⟨0, 0⟩, none⟩]⟩) := by
  constructor
  · simp only [dist, Node.ofCoords, hd]
    norm_num [abs_of_nonneg]
  · simp [EXTEND, candidate, NEAREST_NEIGHBOR, scanStep, NEW_CONFIG, dist,
      Node.ofCoords, Node.add, Node.sub, Node.scale, EPS, INT_MAX, rootState, hd, hobs]
    norm_num [hd, abs_of_nonneg]

/-- A goal within `EPS` of the root: the goal node is appended whatever the
collision test says about the goal. -/
theorem goal_unchecked_extend (E : Env K)
    (hd : ∀ a b c : K, E.distance ⟨a, c⟩ ⟨b, c⟩ = |a - b|)
    (h1 : E.isPointInsideObstacle E.obstacles ⟨190, 20⟩ = false) :
    EXTEND E (rootState (Node.ofCoords 190 20)) (Node.ofCoords 205 20) (Node.ofCoords 205 20) =
      (status.REACHED,
        ⟨[⟨⟨190, 20⟩, none⟩, ⟨⟨190, 20⟩, some 0⟩, ⟨⟨205, 20⟩, some 1⟩],
          [⟨⟨190, 20⟩, none⟩, ⟨⟨190, 20⟩, none⟩]⟩) := by
  simp [EXTEND, candidate, NEAREST_NEIGHBOR, scanStep, NEW_CONFIG, dist,
    Node.ofCoords, Node.add, Node.sub, Node.scale, EPS, INT_MAX, rootState, hd, h1]
  norm_num [hd, h1, abs_of_nonneg, abs_of_nonpos]

/-- A sample on the horizontal axis is in range of a tree that holds a node of
the axis less than `INT_MAX` away. -/
theorem inRange_axis (E : Env K)
    (hd : ∀ a b c : K, E.distance ⟨a, c⟩ ⟨b, c⟩ = |a - b|)
    (l : List (Node K)) (q a : K) (hmem : Node.ofCoords a 0 ∈ l)
    (hlt : |q - a| < 2147483647) : InRange E l (Node.ofCoords q 0) := by
  refine ⟨Node.ofCoords a 0, hmem, ?_⟩
  simp only [dist, Node.ofCoords, hd]
  norm_num [INT_MAX]
  exact hlt

/-- The segment lengths of the tree of scenario 1 after five steps. -/
theorem scenario1_segments (E : Env K)
    (hE : ∀ a b : K, IsEuclid (E.distance ⟨a, 0⟩ ⟨b, 0⟩) ⟨a, 0⟩ ⟨b, 0⟩)
    (hobs : ∀ p, E.isPointInsideObstacle E.obstacles p = false) :
    segmentLengths E (scenario1 E 5).2.node_list = [20, 20, 20, 20, 20, 0] := by
  have hd := axis_distance E hE
  rw [scenario1_five E hE hobs]
  simp [segmentLengths, dist, hd]
  norm_num [abs_of_nonneg]

end ShapeLemmas

/-! ## Facts about the rational environment -/

/-- On a horizontal line the rational Euclidean distance is the absolute
difference of the abscissas. -/
theorem euclidQ_horiz (a b c : ℚ) : euclidQ ⟨a, c⟩ ⟨b, c⟩ = |a - b| := by
  simp only [euclidQ, sub_self, ne_eq, OfNat.ofNat_ne_zero, not_false_eq_true, zero_pow, add_zero]
  rw [sq, Rat.sqrt_eq]

/-- The rational distance is the Euclidean distance whenever the squared
distance of the two points is the square of a rational. -/
theorem euclidQ_exact (a b : Point ℚ)
    (h : ∃ r : ℚ, r * r = (a.x - b.x) ^ 2 + (a.y - b.y) ^ 2) :
    IsEuclid (euclidQ a b) a b := by
  refine ⟨Rat.sqrt_nonneg _, ?_⟩
  rw [sq]
  exact (Rat.exists_mul_self _).mp h

/-- The distance of the rational environment on a horizontal line. -/
theorem envQ_horiz (obstacles : List (Polygon ℚ)) (a b c : ℚ) :
    (envQ obstacles).distance ⟨a, c⟩ ⟨b, c⟩ = |a - b| :=
  euclidQ_horiz a b c

/-- The rational distance is Euclidean on the horizontal axis. -/
theorem envQ_axis (obstacles : List (Polygon ℚ)) (a b : ℚ) :
    IsEuclid ((envQ obstacles).distance ⟨a, 0⟩ ⟨b, 0⟩) ⟨a, 0⟩ ⟨b, 0⟩ := by
  rw [envQ_horiz]
  exact ⟨abs_nonneg _, by simp⟩

/-- With the empty obstacle set no point is inside an obstacle. -/
theorem envQ_nil_free (p : Point ℚ) :
    (envQ []).isPointInsideObstacle (envQ []).obstacles p = false := by
  simp [envQ, pointInsideAnyObstacle]

/-- The distance of two nodes in the rational environment. -/
theorem envQ_dist (obstacles : List (Polygon ℚ)) (a b : Node ℚ) :
    dist (envQ obstacles) a b = euclidQ a.pt b.pt := rfl

/-- The rational Euclidean distance from `(30,40)` to the origin is 50. -/
theorem euclidQ_30_40 : euclidQ ⟨30, 40⟩ ⟨0, 0⟩ = 50 := by
  have h : ((30 : ℚ) - 0) ^ 2 + (40 - 0) ^ 2 = 50 * 50 := by norm_num
  rw [euclidQ, h, Rat.sqrt_eq]
  norm_num

/-- The rational Euclidean distance from `(12,16)` to the origin is 20. -/
theorem euclidQ_12_16 : euclidQ ⟨12, 16⟩ ⟨0, 0⟩ = 20 := by
  have h : ((12 : ℚ) - 0) ^ 2 + (16 - 0) ^ 2 = 20 * 20 := by norm_num
  rw [euclidQ, h, Rat.sqrt_eq]
  norm_num

/-- The point `(190,20)` is outside the obstacle of `init`. -/
theorem init_free_190 :
    (envQ initObstacles).isPointInsideObstacle (envQ initObstacles).obstacles ⟨190, 20⟩ =
      false := by
  show pointInsideAnyObstacle initObstacles (⟨190, 20⟩ : Point ℚ) = false
  simp [pointInsideAnyObstacle, initObstacles, pointInPolygon, edgeCrosses]
  norm_num

/-- The point `(205,20)` is inside the obstacle of `init`. -/
theorem init_inside_205 :
    (envQ initObstacles).isPointInsideObstacle (envQ initObstacles).obstacles ⟨205, 20⟩ =
      true := by
  show pointInsideAnyObstacle initObstacles (⟨205, 20⟩ : Point ℚ) = true
  simp [pointInsideAnyObstacle, initObstacles, pointInPolygon, edgeCrosses]
  norm_num

/-- The start `(100,20)` of `init` is outside its obstacle. -/
theorem init_free_start :
    (envQ initObstacles).isPointInsideObstacle (envQ initObstacles).obstacles ⟨100, 20⟩ =
      false := by
  show pointInsideAnyObstacle initObstacles (⟨100, 20⟩ : Point ℚ) = false
  simp [pointInsideAnyObstacle, initObstacles, pointInPolygon, edgeCrosses]
  norm_num

/-- The goal `(500,20)` of `init` is outside its obstacle. -/
theorem init_free_stop :
    (envQ initObstacles).isPointInsideObstacle (envQ initObstacles).obstacles ⟨500, 20⟩ =
      false := by
  show pointInsideAnyObstacle initObstacles (⟨500, 20⟩ : Point ℚ) = false
  simp [pointInsideAnyObstacle, initObstacles, pointInPolygon, edgeCrosses]
  norm_num

/-! ## The claims -/

section Claims
variable {K : Type} [LinearOrderedField K]

/-- C1 (amended): collision safety.  When the goal lies outside every obstacle,
every node that `EXTEND` appends to the tree (the new node, and the goal node on
`REACHED`) lies outside every obstacle; hence in every state reached from a
collision-free root, every node of the tree lies outside every obstacle. -/
theorem collision_safety (E : Env K) (q_goal : Node K)
    (hgoal : E.isPointInsideObstacle E.obstacles q_goal.pt = false) :
    (∀ (s : Planner K) (q_rand : Node K), ∃ added,
        (EXTEND E s q_rand q_goal).2.node_list = s.node_list ++ added ∧
        ∀ n ∈ added, E.isPointInsideObstacle E.obstacles n.pt = false) ∧
    (∀ (q_init : Node K) (s : Planner K),
        E.isPointInsideObstacle E.obstacles q_init.pt = false →
        Reachable E q_init q_goal s →
        ∀ n ∈ s.node_list, E.isPointInsideObstacle E.obstacles n.pt = false) := by
  refine ⟨EXTEND_added_free E q_goal hgoal, ?_⟩
  intro q_init s hinit hreach
  induction hreach with
  | root =>
    intro n hn
    simp only [rootState, List.mem_singleton] at hn
    rw [hn]
    exact hinit
  | step s q_rand _ ih =>
    obtain ⟨added, hadd, hfree⟩ := EXTEND_added_free E q_goal hgoal s q_rand
    intro n hn
    rw [hadd] at hn
    rcases List.mem_append.mp hn with h | h
    · exact ih n h
    · exact hfree n h

/-- C3 (amended): nearest-neighbour correctness.  When some node of the tree is
at distance below `INT_MAX` from the query, the scan selects as `q_near` a node
of the tree whose distance to the query is at most that of every node of the
tree, and `nearest_dist` is that distance. -/
theorem nearest_neighbor_correct (E : Env K) (node_list : List (Node K)) (q_rand : Node K)
    (h : InRange E node_list q_rand) :
    (NEAREST_NEIGHBOR E node_list q_rand).2 ∈ node_list ∧
      (∀ q ∈ node_list,
        dist E q_rand (NEAREST_NEIGHBOR E node_list q_rand).2 ≤ dist E q_rand q) ∧
      (NEAREST_NEIGHBOR E node_list q_rand).1 =
        dist E q_rand (NEAREST_NEIGHBOR E node_list q_rand).2 := by
  obtain ⟨h1, h2, h3⟩ := nearest_of_inRange E node_list q_rand h
  refine ⟨h1, ?_, h3⟩
  intro q hq
  rw [← h3]
  exact h2 q hq

/-- C4: steering distance.  When the distance from the sample to `q_near` is
Euclidean and at least `EPS`, the point produced by `NEW_CONFIG` is at Euclidean
distance exactly `EPS` from `q_near`: `EPS` is non-negative and its square is the
squared distance of the two points, and any Euclidean distance value between
them (in particular `dist`, when it is Euclidean there) equals `EPS`. -/
theorem NEW_CONFIG_distance (E : Env K) (q_rand q_near : Node K)
    (hE : IsEuclid (dist E q_rand q_near) q_rand.pt q_near.pt)
    (hge : (EPS : K) ≤ dist E q_rand q_near) :
    IsEuclid (EPS : K) (NEW_CONFIG E q_rand q_near).pt q_near.pt ∧
      ∀ d : K, IsEuclid d (NEW_CONFIG E q_rand q_near).pt q_near.pt → d = (EPS : K) := by
  obtain ⟨_, h2⟩ := hE
  have hpos : (0 : K) < dist E q_rand q_near := lt_of_lt_of_le EPS_pos hge
  have hne : dist E q_rand q_near ≠ 0 := ne_of_gt hpos
  have key : IsEuclid (EPS : K) (NEW_CONFIG E q_rand q_near).pt q_near.pt := by
    refine ⟨le_of_lt EPS_pos, ?_⟩
    simp only [NEW_CONFIG, Node.add, Node.sub, Node.scale, Node.ofCoords, add_sub_cancel_left]
    rw [mul_pow, mul_pow, ← add_mul, ← h2, div_pow]
    field_simp
  refine ⟨key, ?_⟩
  intro d hd
  exact eq_of_sq_eq_of_nonneg d _ hd.1 key.1 (by rw [hd.2, key.2])

/-- C5: append-only growth.  The tree after one `EXTEND` step is the tree before
it followed by the appended nodes, and their number is 0 on `TRAPPED`, 1 on
`ADVANCED` and 2 on `REACHED`. -/
theorem EXTEND_append_only (E : Env K) (s : Planner K) (q_rand q_goal : Node K) :
    ∃ added, (EXTEND E s q_rand q_goal).2.node_list = s.node_list ++ added ∧
      added.length = appendedCount (EXTEND E s q_rand q_goal).1 := by
  rcases EXTEND_cases E s q_rand q_goal with ⟨_, he⟩ | ⟨_, _, he⟩ | ⟨_, _, he⟩
  · exact ⟨[], by rw [he]; simp, by rw [he]; rfl⟩
  · exact ⟨_, by rw [he], by rw [he]; rfl⟩
  · exact ⟨_, by rw [he], by rw [he]; rfl⟩

/-- C6 (amended): tree well-formedness.  In every state reached from the
root-only tree by in-range `EXTEND` steps, the first node is the root with null
parent, and the parent reference of every later node resolves to a separately
allocated object, with null parent, that holds the position of a node at a
strictly earlier index; so the walk along parent references from any node ends
after at most one step.  Which earlier node: a new node's parent object holds
the position of the nearest node the scan selected, in the tree as it was
before the new node, and a goal node's parent object holds the position of the
new node inserted just before it (`ParentOrigin`); and one more in-range step
whose candidate is collision-free allocates, at the address stored in the new
node, a null-parent copy of the position of the selected nearest node, a node
of the tree, and on `REACHED`, at the address stored in the goal node, a
null-parent copy of the position of the new node. -/
theorem reachable_well_formed (E : Env K) (q_init q_goal : Node K) (s : Planner K)
    (h : ReachableInRange E q_init q_goal s) :
    WellFormed q_init s ∧
      (∀ n ∈ s.node_list, ∀ fuel, 2 ≤ fuel →
        ∃ path, parentWalk s.heap fuel n = some path ∧ path.length ≤ 2) ∧
      ParentOrigin E q_goal s ∧
      (∀ q_rand, InRange E s.node_list q_rand →
        E.isPointInsideObstacle E.obstacles (candidate E s.node_list q_rand).pt = false →
        (NEAREST_NEIGHBOR E s.node_list q_rand).2 ∈ s.node_list ∧
        ∃ rest allocated,
          (EXTEND E s q_rand q_goal).2.node_list =
            s.node_list ++
              (⟨(candidate E s.node_list q_rand).pt, some s.heap.length⟩ :: rest) ∧
          (EXTEND E s q_rand q_goal).2.heap =
            s.heap ++ (⟨(NEAREST_NEIGHBOR E s.node_list q_rand).2.pt, none⟩ :: allocated) ∧
          ((EXTEND E s q_rand q_goal).1 ≠ status.REACHED → rest = [] ∧ allocated = []) ∧
          ((EXTEND E s q_rand q_goal).1 = status.REACHED →
            rest = [⟨q_goal.pt, some (s.heap.length + 1)⟩] ∧
            allocated = [⟨(candidate E s.node_list q_rand).pt, none⟩])) := by
  have hw : WellFormed q_init s ∧ ParentOrigin E q_goal s := by
    induction h with
    | root => exact ⟨WellFormed_root q_init, ParentOrigin_root E q_init q_goal⟩
    | step s q_rand _ hr ih =>
      exact ⟨WellFormed_step E q_init q_goal q_rand s ih.1 hr,
        ParentOrigin_step E q_goal q_rand s ih.2 hr⟩
  refine ⟨hw.1, fun n hn fuel hf => WellFormed_walk q_init s hw.1 n hn fuel hf, hw.2, ?_⟩
  intro q_rand hr hfree
  refine ⟨(nearest_of_inRange E s.node_list q_rand hr).1, ?_⟩
  rcases EXTEND_cases E s q_rand q_goal with ⟨hin, _⟩ | ⟨_, _, he⟩ | ⟨_, _, he⟩
  · rw [hfree] at hin
    exact absurd hin (by decide)
  · rw [he]
    exact ⟨_, _, rfl, rfl, fun hne => absurd rfl hne, fun _ => ⟨rfl, rfl⟩⟩
  · rw [he]
    refine ⟨[], [], rfl, rfl, fun _ => ⟨rfl, rfl⟩, fun hr => ?_⟩
    exact absurd hr (by simp)

/-- C7 (amended): status of one extension step.  With the candidate computed
from the nearest node, `EXTEND` returns `TRAPPED` exactly when the candidate is
inside an obstacle (and then leaves the state unchanged), `REACHED` exactly when
it is outside and closer than `EPS` to the goal, `ADVANCED` exactly in the
remaining case; on `REACHED` the last node of the tree is the goal node,
appended right after the new node, and the parent reference of the goal node
resolves to a separately allocated object, with null parent, that holds the
position of the new node (the object `new Node(q_new.pt.x, q_new.pt.y)`). -/
theorem EXTEND_status (E : Env K) (s : Planner K) (q_rand q_goal : Node K) :
    ((EXTEND E s q_rand q_goal).1 = status.TRAPPED ↔
        E.isPointInsideObstacle E.obstacles (candidate E s.node_list q_rand).pt = true) ∧
      ((EXTEND E s q_rand q_goal).1 = status.REACHED ↔
        (E.isPointInsideObstacle E.obstacles (candidate E s.node_list q_rand).pt = false ∧
          dist E (candidate E s.node_list q_rand) q_goal < (EPS : K))) ∧
      ((EXTEND E s q_rand q_goal).1 = status.ADVANCED ↔
        (E.isPointInsideObstacle E.obstacles (candidate E s.node_list q_rand).pt = false ∧
          ¬ dist E (candidate E s.node_list q_rand) q_goal < (EPS : K))) ∧
      ((EXTEND E s q_rand q_goal).1 = status.TRAPPED → (EXTEND E s q_rand q_goal).2 = s) ∧
      ((EXTEND E s q_rand q_goal).1 = status.REACHED →
        ∃ a, (EXTEND E s q_rand q_goal).2.node_list =
            s.node_list ++ [⟨(candidate E s.node_list q_rand).pt, some s.heap.length⟩,
              ⟨q_goal.pt, some a⟩] ∧
          (EXTEND E s q_rand q_goal).2.node_list.getLast? = some ⟨q_goal.pt, some a⟩ ∧
          (EXTEND E s q_rand q_goal).2.heap[a]? =
            some (Node.ofCoords (candidate E s.node_list q_rand).pt.x
              (candidate E s.node_list q_rand).pt.y) ∧
          (EXTEND E s q_rand q_goal).2.heap[a]? =
            some ⟨(candidate E s.node_list q_rand).pt, none⟩) := by
  rcases EXTEND_cases E s q_rand q_goal with ⟨hin, he⟩ | ⟨hin, hd, he⟩ | ⟨hin, hd, he⟩
  · rw [he]
    simp [hin]
  · rw [he]
    refine ⟨by simp [hin], by simp [hin, hd], by simp [hd], by simp, ?_⟩
    intro _
    have hh : (s.heap ++ [(⟨(NEAREST_NEIGHBOR E s.node_list q_rand).2.pt, none⟩ : Node K),
        ⟨(candidate E s.node_list q_rand).pt, none⟩])[s.heap.length + 1]? =
        some ⟨(candidate E s.node_list q_rand).pt, none⟩ := by
      rw [List.getElem?_append_right (by simp)]
      simp
    exact ⟨s.heap.length + 1, rfl, by simp, hh, hh⟩
  · rw [he]
    simp [hin, hd]

/-- C8 (amended): scenario 1.  With an empty obstacle set, root `(0,0)`, goal
`(100,0)`, step size 20 and every sample equal to the goal, the first step
selects the root as nearest, adds the node `(20,0)` at distance 20 from the root
and returns `ADVANCED`; steps 2 to 4 return `ADVANCED`; the fifth step returns
`REACHED` and the tree then holds exactly 7 nodes: the root, four intermediate
nodes, a node at the goal position and the goal node, with consecutive segments
of length 20 except the last, of length 0. -/
theorem scenario1_trace (E : Env K)
    (hE : ∀ a b : K, IsEuclid (E.distance ⟨a, 0⟩ ⟨b, 0⟩) ⟨a, 0⟩ ⟨b, 0⟩)
    (hempty : E.obstacles = [])
    (hfree : ∀ p, E.isPointInsideObstacle [] p = false) :
    (NEAREST_NEIGHBOR E (rootState (Node.ofCoords 0 0)).node_list (Node.ofCoords 100 0)).2 =
        ⟨⟨0, 0⟩, none⟩ ∧
      scenario1 E 1 = (status.ADVANCED,
        ⟨[⟨⟨0, 0⟩, none⟩, ⟨⟨20, 0⟩, some 0⟩], [⟨⟨0, 0⟩, none⟩]⟩) ∧
      E.distance ⟨20, 0⟩ ⟨0, 0⟩ = 20 ∧
      (scenario1 E 2).1 = status.ADVANCED ∧
      (scenario1 E 3).1 = status.ADVANCED ∧
      (scenario1 E 4).1 = status.ADVANCED ∧
      (scenario1 E 5).1 = status.REACHED ∧
      (scenario1 E 5).2.node_list =
        [⟨⟨0, 0⟩, none⟩, ⟨⟨20, 0⟩, some 0⟩, ⟨⟨40, 0⟩, some 1⟩, ⟨⟨60, 0⟩, some 2⟩,
          ⟨⟨80, 0⟩, some 3⟩, ⟨⟨100, 0⟩, some 4⟩, ⟨⟨100, 0⟩, some 5⟩] ∧
      (scenario1 E 5).2.node_list.length = 7 ∧
      segmentLengths E (scenario1 E 5).2.node_list = [20, 20, 20, 20, 20, 0] := by
  have hobs : ∀ p, E.isPointInsideObstacle E.obstacles p = false := by
    intro p; rw [hempty]; exact hfree p
  have hd := axis_distance E hE
  refine ⟨?_, scenario1_one E hE hobs, ?_, ?_, ?_, ?_, ?_, ?_, ?_, ?_⟩
  · simp [NEAREST_NEIGHBOR, scanStep, dist, Node.ofCoords, INT_MAX, rootState, hd]
    norm_num [hd, abs_of_nonneg]
  · rw [hd]; norm_num [abs_of_nonneg]
  · rw [scenario1_two E hE hobs]
  · rw [scenario1_three E hE hobs]
  · rw [scenario1_four E hE hobs]
  · rw [scenario1_five E hE hobs]
  · rw [scenario1_five E hE hobs]
  · rw [scenario1_five E hE hobs]; rfl
  · rw [scenario1_five E hE hobs]
    simp [segmentLengths, dist, hd]
    norm_num [abs_of_nonneg]

/-- C9 (amended): the short-step case.  When some node of the tree is closer
than `EPS` to the sample, the candidate is the nearest node `q_near`, a node of
the tree; the collision and goal checks are made on it (`TRAPPED` exactly when
it is inside an obstacle, `REACHED` exactly when it is outside and closer than
`EPS` to the goal); and when it is outside every obstacle, `EXTEND` appends a
node at the position of `q_near`, a position already in the tree. -/
theorem short_step_duplicate (E : Env K) (s : Planner K) (q_rand q_goal : Node K)
    (h : ∃ q ∈ s.node_list, dist E q_rand q < (EPS : K)) :
    candidate E s.node_list q_rand = (NEAREST_NEIGHBOR E s.node_list q_rand).2 ∧
      (NEAREST_NEIGHBOR E s.node_list q_rand).2 ∈ s.node_list ∧
      ((EXTEND E s q_rand q_goal).1 = status.TRAPPED ↔
        E.isPointInsideObstacle E.obstacles (NEAREST_NEIGHBOR E s.node_list q_rand).2.pt = true) ∧
      ((EXTEND E s q_rand q_goal).1 = status.REACHED ↔
        (E.isPointInsideObstacle E.obstacles (NEAREST_NEIGHBOR E s.node_list q_rand).2.pt = false ∧
          dist E (NEAREST_NEIGHBOR E s.node_list q_rand).2 q_goal < (EPS : K))) ∧
      (E.isPointInsideObstacle E.obstacles (NEAREST_NEIGHBOR E s.node_list q_rand).2.pt = false →
        ∃ rest, (EXTEND E s q_rand q_goal).2.node_list =
          s.node_list ++
            (⟨(NEAREST_NEIGHBOR E s.node_list q_rand).2.pt, some s.heap.length⟩ :: rest)) := by
  obtain ⟨hr, hlt⟩ := nearest_lt_EPS E s.node_list q_rand h
  have hc : candidate E s.node_list q_rand = (NEAREST_NEIGHBOR E s.node_list q_rand).2 := by
    simp [candidate, hlt]
  refine ⟨hc, (nearest_of_inRange E s.node_list q_rand hr).1, ?_⟩
  rw [← hc]
  rcases EXTEND_cases E s q_rand q_goal with ⟨hin, he⟩ | ⟨hin, hd, he⟩ | ⟨hin, hd, he⟩
  · rw [he]
    simp [hin]
  · rw [he]
    exact ⟨by simp [hin], by simp [hin, hd], fun _ => ⟨_, rfl⟩⟩
  · rw [he]
    exact ⟨by simp [hin], by simp [hd], fun _ => ⟨_, rfl⟩⟩

/-- C10 (amended): zero-distance steering guard.  When some node of the tree is
at distance below `INT_MAX` from the sample: if the distance from the sample to
`q_near` is 0 the candidate is `q_near` unchanged; whenever `NEW_CONFIG` is
called (`nearest_dist < EPS` fails) its divisor `dist(q_rand, q_near)` is at
least `EPS > 0`; so the steering step never divides by zero. -/
theorem steering_guard (E : Env K) (node_list : List (Node K)) (q_rand : Node K)
    (h : InRange E node_list q_rand) :
    (dist E q_rand (NEAREST_NEIGHBOR E node_list q_rand).2 = 0 →
        candidate E node_list q_rand = (NEAREST_NEIGHBOR E node_list q_rand).2) ∧
      (¬ (NEAREST_NEIGHBOR E node_list q_rand).1 < (EPS : K) →
        (EPS : K) ≤ dist E q_rand (NEAREST_NEIGHBOR E node_list q_rand).2 ∧ (0 : K) < (EPS : K)) ∧
      candidateChecked E node_list q_rand = some (candidate E node_list q_rand) := by
  obtain ⟨_, _, h3⟩ := nearest_of_inRange E node_list q_rand h
  refine ⟨?_, ?_, ?_⟩
  · intro h0
    have hlt : (NEAREST_NEIGHBOR E node_list q_rand).1 < (EPS : K) := by
      rw [h3, h0]; exact EPS_pos
    simp [candidate, hlt]
  · intro hn
    exact ⟨by rw [← h3]; exact not_lt.mp hn, EPS_pos⟩
  · by_cases hlt : (NEAREST_NEIGHBOR E node_list q_rand).1 < (EPS : K)
    · simp [candidateChecked, candidate, hlt]
    · have hne : dist E q_rand (NEAREST_NEIGHBOR E node_list q_rand).2 ≠ 0 := by
        have hge : (EPS : K) ≤ dist E q_rand (NEAREST_NEIGHBOR E node_list q_rand).2 := by
          rw [← h3]; exact not_lt.mp hlt
        exact ne_of_gt (lt_of_lt_of_le EPS_pos hge)
      simp [candidateChecked, candidate, hlt, hne]

end Claims

/-! ## Evaluation at concrete inputs -/

/-- C1, counterexample: with the obstacle of `init`, the collision-free root
`(190,20)` and the goal `(205,20)` inside the obstacle, `EXTEND` returns
`REACHED` and appends the goal node, a node inside the obstacle. -/
theorem goal_node_inside_obstacle :
    EXTEND (envQ initObstacles) (rootState (Node.ofCoords 190 20)) (Node.ofCoords 205 20)
        (Node.ofCoords 205 20) =
        (status.REACHED,
          ⟨[⟨⟨190, 20⟩, none⟩, ⟨⟨190, 20⟩, some 0⟩, ⟨⟨205, 20⟩, some 1⟩],
            [⟨⟨190, 20⟩, none⟩, ⟨⟨190, 20⟩, none⟩]⟩) ∧
      (envQ initObstacles).isPointInsideObstacle (envQ initObstacles).obstacles ⟨190, 20⟩ =
        false ∧
      (envQ initObstacles).isPointInsideObstacle (envQ initObstacles).obstacles ⟨205, 20⟩ =
        true :=
  ⟨goal_unchecked_extend (envQ initObstacles) (envQ_horiz initObstacles) init_free_190,
    init_free_190, init_inside_205⟩

/-- C1, witness: the obstacle, start `(100,20)` and goal `(500,20)` of `init`;
after one step toward the goal every node of the tree is outside the obstacle. -/
theorem collision_safety_witness :
    (envQ initObstacles).isPointInsideObstacle (envQ initObstacles).obstacles
        (Node.ofCoords 500 20 : Node ℚ).pt = false ∧
      ∀ n ∈ (EXTEND (envQ initObstacles) (rootState (Node.ofCoords 100 20))
          (Node.ofCoords 500 20) (Node.ofCoords 500 20)).2.node_list,
        (envQ initObstacles).isPointInsideObstacle (envQ initObstacles).obstacles n.pt = false :=
  ⟨init_free_stop,
    (collision_safety (envQ initObstacles) (Node.ofCoords 500 20) init_free_stop).2
      (Node.ofCoords 100 20) _ init_free_start (Reachable.step _ _ Reachable.root)⟩

/-- C3, counterexample: for the tree holding only `(1,0)` and the query
`(3000000001,0)`, at distance 3000000000 from it, the scan selects no node of
the tree (`q_near` stays the default-constructed node) and `nearest_dist` stays
`INT_MAX`, which is not the distance to the node. -/
theorem nearest_beyond_INT_MAX :
    NEAREST_NEIGHBOR (envQ []) [Node.ofCoords 1 0] (Node.ofCoords 3000000001 0) =
        (2147483647, (envQ []).q_default) ∧
      (NEAREST_NEIGHBOR (envQ []) [Node.ofCoords 1 0] (Node.ofCoords 3000000001 0)).2 ∉
        [(Node.ofCoords 1 0 : Node ℚ)] ∧
      dist (envQ []) (Node.ofCoords 3000000001 0) (Node.ofCoords 1 0) = 3000000000 ∧
      (NEAREST_NEIGHBOR (envQ []) [Node.ofCoords 1 0] (Node.ofCoords 3000000001 0)).1 ≠
        dist (envQ []) (Node.ofCoords 3000000001 0) (Node.ofCoords 1 0) :=
  far_query_scan (envQ []) (envQ_horiz []) rfl

/-- C3, witness: the tree `(0,0)`, `(20,0)` and the query `(100,0)`. -/
theorem nearest_neighbor_correct_witness :
    InRange (envQ []) [Node.ofCoords 0 0, Node.ofCoords 20 0] (Node.ofCoords 100 0) ∧
      (NEAREST_NEIGHBOR (envQ []) [Node.ofCoords 0 0, Node.ofCoords 20 0]
          (Node.ofCoords 100 0)).2 ∈ [(Node.ofCoords 0 0 : Node ℚ), Node.ofCoords 20 0] ∧
      (∀ q ∈ [(Node.ofCoords 0 0 : Node ℚ), Node.ofCoords 20 0],
        dist (envQ []) (Node.ofCoords 100 0)
          (NEAREST_NEIGHBOR (envQ []) [Node.ofCoords 0 0, Node.ofCoords 20 0]
            (Node.ofCoords 100 0)).2 ≤ dist (envQ []) (Node.ofCoords 100 0) q) ∧
      (NEAREST_NEIGHBOR (envQ []) [Node.ofCoords 0 0, Node.ofCoords 20 0]
          (Node.ofCoords 100 0)).1 =
        dist (envQ []) (Node.ofCoords 100 0)
          (NEAREST_NEIGHBOR (envQ []) [Node.ofCoords 0 0, Node.ofCoords 20 0]
            (Node.ofCoords 100 0)).2 :=
  have h : InRange (envQ []) [Node.ofCoords 0 0, Node.ofCoords 20 0] (Node.ofCoords 100 0) :=
    inRange_axis (envQ []) (envQ_horiz []) _ 100 0 (List.mem_cons_self _ _)
      (by norm_num [abs_of_nonneg])
  ⟨h, nearest_neighbor_correct (envQ []) _ _ h⟩

/-- The distance from the node `(30,40)` to the node at the origin is 50. -/
theorem dist_envQ_30_40 :
    dist (envQ []) (Node.ofCoords 30 40) (Node.ofCoords 0 0) = 50 := by
  rw [envQ_dist]
  exact euclidQ_30_40

/-- C4, witness: `q_near = (0,0)` and `q_rand = (30,40)`, at distance 50; the
new configuration is `(12,16)`, at Euclidean distance 20 from `q_near`. -/
theorem NEW_CONFIG_distance_witness :
    IsEuclid (dist (envQ []) (Node.ofCoords 30 40) (Node.ofCoords 0 0))
        (Node.ofCoords 30 40 : Node ℚ).pt (Node.ofCoords 0 0 : Node ℚ).pt ∧
      ((EPS : ℤ) : ℚ) ≤ dist (envQ []) (Node.ofCoords 30 40) (Node.ofCoords 0 0) ∧
      (NEW_CONFIG (envQ []) (Node.ofCoords 30 40) (Node.ofCoords 0 0)).pt = ⟨12, 16⟩ ∧
      IsEuclid ((EPS : ℤ) : ℚ)
        (NEW_CONFIG (envQ []) (Node.ofCoords 30 40) (Node.ofCoords 0 0)).pt
        (Node.ofCoords 0 0 : Node ℚ).pt :=
  have h1 : IsEuclid (dist (envQ []) (Node.ofCoords 30 40) (Node.ofCoords 0 0))
      (Node.ofCoords 30 40 : Node ℚ).pt (Node.ofCoords 0 0 : Node ℚ).pt := by
    rw [dist_envQ_30_40]
    exact ⟨by norm_num, by norm_num [Node.ofCoords]⟩
  have h2 : ((EPS : ℤ) : ℚ) ≤ dist (envQ []) (Node.ofCoords 30 40) (Node.ofCoords 0 0) := by
    rw [dist_envQ_30_40]; norm_num [EPS]
  have h3 : (NEW_CONFIG (envQ []) (Node.ofCoords 30 40) (Node.ofCoords 0 0)).pt =
      ⟨12, 16⟩ := by
    rw [NEW_CONFIG, dist_envQ_30_40]
    norm_num [Node.ofCoords, Node.add, Node.sub, Node.scale, EPS]
  ⟨h1, h2, h3,
    (NEW_CONFIG_distance (envQ []) (Node.ofCoords 30 40) (Node.ofCoords 0 0) h1 h2).1⟩

/-- C6, counterexample: after two steps of scenario 1 the node `(40,0)` at index
2 points to the allocated object `((20,0), nullptr)`, which is not a node of the
tree (the tree node at `(20,0)` has a non-null parent); the walk from the node
at index 2 ends there, without reaching the root. -/
theorem parent_not_in_tree :
    (scenario1 (envQ []) 2).2.node_list =
        [⟨⟨0, 0⟩, none⟩, ⟨⟨20, 0⟩, some 0⟩, ⟨⟨40, 0⟩, some 1⟩] ∧
      (scenario1 (envQ []) 2).2.heap[1]? = some ⟨⟨20, 0⟩, none⟩ ∧
      (⟨⟨20, 0⟩, none⟩ : Node ℚ) ∉ (scenario1 (envQ []) 2).2.node_list ∧
      parentWalk (scenario1 (envQ []) 2).2.heap 3 ⟨⟨40, 0⟩, some 1⟩ =
        some [⟨40, 0⟩, ⟨20, 0⟩] := by
  rw [scenario1_two (envQ []) (envQ_axis []) envQ_nil_free]
  refine ⟨rfl, by simp, by simp, by simp [parentWalk]⟩

/-- C6, witness: the state after the first step of scenario 1. -/
theorem reachable_well_formed_witness :
    ReachableInRange (envQ []) (Node.ofCoords 0 0) (Node.ofCoords 100 0)
        (EXTEND (envQ []) (rootState (Node.ofCoords 0 0)) (Node.ofCoords 100 0)
          (Node.ofCoords 100 0)).2 ∧
      WellFormed (Node.ofCoords 0 0)
        (EXTEND (envQ []) (rootState (Node.ofCoords 0 0)) (Node.ofCoords 100 0)
          (Node.ofCoords 100 0)).2 ∧
      ParentOrigin (envQ []) (Node.ofCoords 100 0)
        (EXTEND (envQ []) (rootState (Node.ofCoords 0 0)) (Node.ofCoords 100 0)
          (Node.ofCoords 100 0)).2 :=
  have hr : InRange (envQ []) (rootState (Node.ofCoords 0 0)).node_list (Node.ofCoords 100 0) :=
    inRange_axis (envQ []) (envQ_horiz []) _ 100 0 (List.mem_cons_self _ _)
      (by norm_num [abs_of_nonneg])
  have h : ReachableInRange (envQ []) (Node.ofCoords 0 0) (Node.ofCoords 100 0)
      (EXTEND (envQ []) (rootState (Node.ofCoords 0 0)) (Node.ofCoords 100 0)
        (Node.ofCoords 100 0)).2 :=
    ReachableInRange.step _ _ ReachableInRange.root hr
  ⟨h, (reachable_well_formed (envQ []) (Node.ofCoords 0 0) (Node.ofCoords 100 0) _ h).1,
    (reachable_well_formed (envQ []) (Node.ofCoords 0 0) (Node.ofCoords 100 0) _ h).2.2.1⟩

/-- C7, counterexample: the fifth step of scenario 1 returns `REACHED`; the new
node is the tree node `((100,0), parent at address 4)` at index 5 and the goal
node is last, with parent address 5; the object at address 5 is
`((100,0), nullptr)`, which is not the new node and is no node of the tree. -/
theorem goal_parent_is_copy :
    (EXTEND (envQ []) (scenario1 (envQ []) 4).2 (Node.ofCoords 100 0)
        (Node.ofCoords 100 0)).1 = status.REACHED ∧
      (EXTEND (envQ []) (scenario1 (envQ []) 4).2 (Node.ofCoords 100 0)
        (Node.ofCoords 100 0)).2.node_list[5]? = some ⟨⟨100, 0⟩, some 4⟩ ∧
      (EXTEND (envQ []) (scenario1 (envQ []) 4).2 (Node.ofCoords 100 0)
        (Node.ofCoords 100 0)).2.node_list.getLast? = some ⟨⟨100, 0⟩, some 5⟩ ∧
      (EXTEND (envQ []) (scenario1 (envQ []) 4).2 (Node.ofCoords 100 0)
        (Node.ofCoords 100 0)).2.heap[5]? = some ⟨⟨100, 0⟩, none⟩ ∧
      (⟨⟨100, 0⟩, none⟩ : Node ℚ) ≠ ⟨⟨100, 0⟩, some 4⟩ ∧
      (⟨⟨100, 0⟩, none⟩ : Node ℚ) ∉
        (EXTEND (envQ []) (scenario1 (envQ []) 4).2 (Node.ofCoords 100 0)
          (Node.ofCoords 100 0)).2.node_list := by
  rw [scenario1_step_five (envQ []) (envQ_axis []) envQ_nil_free]
  refine ⟨rfl, by simp, by simp, by simp, by simp, by simp⟩

/-- C8, counterexample: after five steps of scenario 1 the status is `REACHED`
and the tree holds 7 nodes, not 6; its last segment has length 0, not 20. -/
theorem scenario1_seven_nodes :
    (scenario1 (envQ []) 5).1 = status.REACHED ∧
      (scenario1 (envQ []) 5).2.node_list.length = 7 ∧
      (scenario1 (envQ []) 5).2.node_list.length ≠ 6 ∧
      segmentLengths (envQ []) (scenario1 (envQ []) 5).2.node_list =
        [20, 20, 20, 20, 20, 0] := by
  refine ⟨?_, ?_, ?_, scenario1_segments (envQ []) (envQ_axis []) envQ_nil_free⟩
  · rw [scenario1_five (envQ []) (envQ_axis []) envQ_nil_free]
  · rw [scenario1_five (envQ []) (envQ_axis []) envQ_nil_free]; rfl
  · rw [scenario1_five (envQ []) (envQ_axis []) envQ_nil_free]; decide

/-- C8, witness: the rational environment with the empty obstacle set. -/
theorem scenario1_trace_witness :
    (∀ a b : ℚ, IsEuclid ((envQ []).distance ⟨a, 0⟩ ⟨b, 0⟩) ⟨a, 0⟩ ⟨b, 0⟩) ∧
      (envQ []).obstacles = [] ∧
      (∀ p, (envQ []).isPointInsideObstacle [] p = false) ∧
      (scenario1 (envQ []) 5).1 = status.REACHED ∧
      (scenario1 (envQ []) 5).2.node_list.length = 7 :=
  ⟨envQ_axis [], rfl, envQ_nil_free,
    (scenario1_trace (envQ []) (envQ_axis []) rfl envQ_nil_free).2.2.2.2.2.2.1,
    (scenario1_trace (envQ []) (envQ_axis []) rfl envQ_nil_free).2.2.2.2.2.2.2.2.1⟩

/-- C9, counterexample: for the tree holding only the root `(0,0)` and the
sample `(10,0)`, closer than `EPS` to it, `EXTEND` returns `ADVANCED` and appends
a second node at `(0,0)`, the position of the root. -/
theorem short_step_inserts_duplicate :
    dist (envQ []) (Node.ofCoords 10 0) (Node.ofCoords 0 0) = 10 ∧
      EXTEND (envQ []) (rootState (Node.ofCoords 0 0)) (Node.ofCoords 10 0)
          (Node.ofCoords 100 0) =
        (status.ADVANCED,
          ⟨[⟨⟨0, 0⟩, none⟩, ⟨⟨0, 0⟩, some 0⟩], [⟨⟨0, 0⟩, none⟩]⟩) :=
  short_step_extend (envQ []) (envQ_horiz []) envQ_nil_free

/-- C9, witness: the tree holding the root `(0,0)` and the sample `(10,0)`. -/
theorem short_step_duplicate_witness :
    (∃ q ∈ (rootState (Node.ofCoords 0 0 : Node ℚ)).node_list,
        dist (envQ []) (Node.ofCoords 10 0) q < ((EPS : ℤ) : ℚ)) ∧
      candidate (envQ []) (rootState (Node.ofCoords 0 0)).node_list (Node.ofCoords 10 0) =
        (NEAREST_NEIGHBOR (envQ []) (rootState (Node.ofCoords 0 0)).node_list
          (Node.ofCoords 10 0)).2 :=
  have h : ∃ q ∈ (rootState (Node.ofCoords 0 0 : Node ℚ)).node_list,
      dist (envQ []) (Node.ofCoords 10 0) q < ((EPS : ℤ) : ℚ) :=
    ⟨Node.ofCoords 0 0, List.mem_cons_self _ _, by
      rw [(short_step_extend (envQ []) (envQ_horiz []) envQ_nil_free).1]
      norm_num [EPS]⟩
  ⟨h, (short_step_duplicate (envQ []) (rootState (Node.ofCoords 0 0)) (Node.ofCoords 10 0)
    (Node.ofCoords 100 0) h).1⟩

/-- C10, counterexample: for the tree holding only `(3000000000,0)` and the
sample `(0,0)`, the scan selects no node, `nearest_dist` stays `INT_MAX`, which
is not below `EPS`, and `NEW_CONFIG` is called with `q_near` the
default-constructed node at distance 0 from the sample: a division by zero. -/
theorem steering_divides_by_zero :
    ¬ (NEAREST_NEIGHBOR (envQ []) [Node.ofCoords 3000000000 0] (Node.ofCoords 0 0)).1 <
        ((EPS : ℤ) : ℚ) ∧
      dist (envQ []) (Node.ofCoords 0 0)
        (NEAREST_NEIGHBOR (envQ []) [Node.ofCoords 3000000000 0] (Node.ofCoords 0 0)).2 = 0 ∧
      candidateChecked (envQ []) [Node.ofCoords 3000000000 0] (Node.ofCoords 0 0) = none :=
  far_tree_zero_divisor (envQ []) (envQ_horiz []) rfl

/-- C10, witness: the tree holding the root `(0,0)` and the sample `(100,0)`. -/
theorem steering_guard_witness :
    InRange (envQ []) [Node.ofCoords 0 0] (Node.ofCoords 100 0) ∧
      candidateChecked (envQ []) [Node.ofCoords 0 0] (Node.ofCoords 100 0) =
        some (candidate (envQ []) [Node.ofCoords 0 0] (Node.ofCoords 100 0)) :=
  have h : InRange (envQ []) [Node.ofCoords 0 0] (Node.ofCoords 100 0) :=
    inRange_axis (envQ []) (envQ_horiz []) _ 100 0 (List.mem_cons_self _ _)
      (by norm_num [abs_of_nonneg])
  ⟨h, (steering_guard (envQ []) [Node.ofCoords 0 0] (Node.ofCoords 100 0) h).2.2⟩

end RRT
